import Mathlib

/-!
Verification development for the sandbox pool manager of the `mwin` repository
(`kubent/src/sandbox/manager.py` and `kubent/src/sandbox/core.py`).

The Python classes are shallowly embedded:
* `OrderedDict` becomes an association list (front = least recently used,
  back = most recently used), with operations mirroring the exact dict
  operations used by the source (`[k]`, `[k] = v`, `pop`, `move_to_end`,
  `popitem(last=False)`, membership).
* `time.time()` is threaded as an explicit `Int` argument `now`.
* The docker daemon is modelled as a name-to-status association list; docker
  side effects are reported as explicit event lists.
* `DockerSandbox.close` swallows all exceptions of `stop`/`remove_container`
  (two independent try/except blocks), so it is embedded as a total function
  returning which sub-steps failed, driven by an environment oracle.
-/

/-- Association list standing in for Python `OrderedDict[str, α]`.
The list front corresponds to the oldest (least recently used) entry. -/
abbrev OD (α : Type) := List (String × α)

/-- Keys of an ordered dict, in order. -/
def od_keys (d : OD α) : List String := d.map Prod.fst

/-- Python `k in d`. -/
def od_mem (k : String) (d : OD α) : Bool := d.any (fun p => p.1 == k)

/-- Python `d[k]` read access (`None` stands for a `KeyError`). -/
def od_get (k : String) (d : OD α) : Option α :=
  (d.find? (fun p => p.1 == k)).map Prod.snd

/-- Python `d[k] = v`: overwrite in place if present, else append at the
most-recently-used end. -/
def od_set (k : String) (v : α) (d : OD α) : OD α :=
  if od_mem k d then d.map (fun p => if p.1 == k then (k, v) else p)
  else d ++ [(k, v)]

/-- Python `d.pop(k)` state effect: drop the entry with key `k`. -/
def od_erase (k : String) (d : OD α) : OD α := d.filter (fun p => p.1 != k)

/-- Python `d.move_to_end(k)` for a present key: reinsert the entry at the
most-recently-used end (no-op when the key is absent). -/
def od_move_to_end (k : String) (d : OD α) : OD α :=
  match od_get k d with
  | some v => od_erase k d ++ [(k, v)]
  | none => d

/-- `VolumeMount` of `core.py` (host paths are plain strings here). -/
structure VolumeMount where
  host_path : String
  container_path : String
  read_only : Bool := false
  create_if_missing : Bool := true
deriving DecidableEq, Repr

/-- `DockerSandboxConfig` of `core.py`. -/
structure DockerSandboxConfig where
  agent_name : String
  session_id : String
  docker_image : String
  docker_volumns : List VolumeMount := []
  life_seconds : Nat := 600
deriving DecidableEq, Repr

/-- `DockerSandbox` of `core.py`: it keeps the session id and wraps one
`DockerContainer`, which is identified by its deterministic name. -/
structure DockerSandbox where
  session_id : String
  container_name : String
deriving DecidableEq, Repr

/-- `DockerSandbox.__init__`: stores `config.session_id` and builds the
container name `f"{config.agent_name}-sandbox-{config.session_id}"`. -/
def DockerSandbox.ofConfig (config : DockerSandboxConfig) : DockerSandbox :=
  { session_id := config.session_id,
    container_name := config.agent_name ++ "-sandbox-" ++ config.session_id }

/-- Oracle describing whether the docker daemon makes `container.stop()` or
`container.remove()` raise for a given container name. -/
structure CloseBehavior where
  stop_fails : Bool
  remove_fails : Bool
deriving DecidableEq, Repr

/-- What `DockerSandbox.close` observed: which of the two best-effort
sub-steps raised (each failure is caught and only logged). -/
structure CloseOutcome where
  container_name : String
  stop_failed : Bool
  remove_failed : Bool
deriving DecidableEq, Repr

/-- `DockerSandbox.close`: `stop` then `remove_container`, each wrapped in
its own try/except that prints a warning; the function itself never raises,
so it is total and merely reports the failures it swallowed. -/
def DockerSandbox.close (env : String → CloseBehavior) (sb : DockerSandbox) :
    CloseOutcome :=
  { container_name := sb.container_name,
    stop_failed := (env sb.container_name).stop_fails,
    remove_failed := (env sb.container_name).remove_fails }

/-- `SandboxPoolItem` of `manager.py`. -/
structure SandboxPoolItem where
  sandbox : DockerSandbox
  agent_name : String
  session_id : String
  created_at : Int
  last_accessed : Int
  access_count : Nat := 0
deriving DecidableEq, Repr

/-- `SandboxPoolItem.update_access`: refresh `last_accessed` and bump
`access_count`. -/
def update_access (item : SandboxPoolItem) (now : Int) : SandboxPoolItem :=
  { item with last_accessed := now, access_count := item.access_count + 1 }

/-- `SandboxManager` state: capacity plus the two ordered tiers
(`_pool` is the active tier, `_evicted` the soft-evicted tier). -/
structure SandboxManager where
  capacity : Nat
  pool : OD SandboxPoolItem
  evicted : OD SandboxPoolItem
deriving DecidableEq, Repr

/-- `SandboxManager.__init__`: both tiers start empty. -/
def SandboxManager.mkEmpty (capacity : Nat) : SandboxManager :=
  { capacity := capacity, pool := [], evicted := [] }

/-- `SandboxManager._make_key`: the flattened composite key
`f"{agent_name}:{session_id}"`. -/
def make_key (agent_name session_id : String) : String :=
  agent_name ++ ":" ++ session_id

/-- The `ValueError` raised by `get_sandbox` for an unknown key without a
config (the message interpolates both identity components). -/
inductive SandboxError where
  | valueError (agent_name session_id : String)
deriving DecidableEq, Repr

/-- `SandboxManager._evict_lru`: pop the least-recently-used active entry
(`popitem(last=False)`) and move it unchanged into the evicted tier; the
container is left running. No-op on an empty active tier. -/
def evict_lru (m : SandboxManager) : SandboxManager :=
  match m.pool with
  | [] => m
  | (lru_key, pool_item) :: rest =>
      { m with pool := rest, evicted := od_set lru_key pool_item m.evicted }

/-- `SandboxManager.get_sandbox`. Returns the raised error or the returned
sandbox together with a flag telling whether a fresh `DockerSandbox` was
constructed, and the state after the call. -/
def get_sandbox (m : SandboxManager) (agent_name session_id : String)
    (config : Option DockerSandboxConfig) (now : Int) :
    Except SandboxError (DockerSandbox × Bool) × SandboxManager :=
  let key := make_key agent_name session_id
  match od_get key m.pool with
  | some item =>
      let item := update_access item now
      let pool := od_move_to_end key (od_set key item m.pool)
      (Except.ok (item.sandbox, false), { m with pool := pool })
  | none =>
  match od_get key m.evicted with
  | some item =>
      let evicted := od_erase key m.evicted
      let item := update_access item now
      let pool := od_move_to_end key (od_set key item m.pool)
      (Except.ok (item.sandbox, false), { m with pool := pool, evicted := evicted })
  | none =>
  match config with
  | none => (Except.error (SandboxError.valueError agent_name session_id), m)
  | some cfg =>
      let m := if m.pool.length ≥ m.capacity then evict_lru m else m
      let sandbox := DockerSandbox.ofConfig cfg
      let pool_item : SandboxPoolItem :=
        { sandbox := sandbox, agent_name := agent_name, session_id := session_id,
          created_at := now, last_accessed := now, access_count := 1 }
      let pool := od_move_to_end key (od_set key pool_item m.pool)
      (Except.ok (sandbox, true), { m with pool := pool })

/-- `SandboxManager.mark_sandbox`: touch-only; a no-op unless the key is in
the active tier. -/
def mark_sandbox (m : SandboxManager) (agent_name session_id : String)
    (now : Int) : SandboxManager :=
  let key := make_key agent_name session_id
  match od_get key m.pool with
  | some item =>
      { m with pool := od_move_to_end key (od_set key (update_access item now) m.pool) }
  | none => m

/-- `SandboxManager.remove_sandbox`: pop from active, else from evicted, and
hard-close the popped sandbox (`close` never raises); reports whether
anything was removed. -/
def remove_sandbox (m : SandboxManager) (agent_name session_id : String) :
    Bool × SandboxManager :=
  let key := make_key agent_name session_id
  match od_get key m.pool with
  | some _ => (true, { m with pool := od_erase key m.pool })
  | none =>
  match od_get key m.evicted with
  | some _ => (true, { m with evicted := od_erase key m.evicted })
  | none => (false, m)

/-- `SandboxManager.has_sandbox`. -/
def has_sandbox (m : SandboxManager) (agent_name session_id : String) : Bool :=
  let key := make_key agent_name session_id
  od_mem key m.pool || od_mem key m.evicted

/-- The per-key loop body of `cleanup_idle_sandboxes`: for every collected
key, `pop` the entry, `close` it (total, failures swallowed inside `close`),
and bump `cleaned_count`. The `except` branch of the source around `close`
is unreachable because `close` never raises; a key missing from the dict
would be a `KeyError` in Python, which cannot happen since the keys were
just collected from the dict — it is modelled as a skip. -/
def cleanup_loop (env : String → CloseBehavior) :
    List String → OD SandboxPoolItem → Nat → List CloseOutcome →
    Nat × List CloseOutcome × OD SandboxPoolItem
  | [], ev, cleaned_count, outs => (cleaned_count, outs, ev)
  | k :: ks, ev, cleaned_count, outs =>
    match od_get k ev with
    | some item =>
        cleanup_loop env ks (od_erase k ev) (cleaned_count + 1)
          (outs ++ [DockerSandbox.close env item.sandbox])
    | none => cleanup_loop env ks ev cleaned_count outs

/-- Whether an evicted entry is past the idle timeout:
`current_time - item.last_accessed > idle_timeout` (strict). -/
def staleP (idle_timeout now : Int) (p : String × SandboxPoolItem) : Bool :=
  decide (idle_timeout < now - p.2.last_accessed)

/-- `SandboxManager.cleanup_idle_sandboxes`: collect the evicted keys past
the timeout, then pop and close each, counting them; the active tier is
never inspected. Returns the count, the close outcomes, and the new state. -/
def cleanup_idle_sandboxes (env : String → CloseBehavior) (m : SandboxManager)
    (idle_timeout now : Int) : Nat × List CloseOutcome × SandboxManager :=
  let keys_to_remove := (m.evicted.filter (staleP idle_timeout now)).map Prod.fst
  let r := cleanup_loop env keys_to_remove m.evicted 0 []
  (r.1, r.2.1, { m with evicted := r.2.2 })

/-- `SandboxManager.cleanup_all_evicted`: snapshot the count, then pop and
close every evicted entry; the returned count is the snapshot. -/
def cleanup_all_evicted (env : String → CloseBehavior) (m : SandboxManager) :
    Nat × List CloseOutcome × SandboxManager :=
  let count := m.evicted.length
  let r := cleanup_loop env (m.evicted.map Prod.fst) m.evicted 0 []
  (count, r.2.1, { m with evicted := r.2.2 })

/-- Python `key.split(":", 1)` as used by `clear_pool`. A key without a
colon would make the two-name unpacking raise in Python; every key produced
by `_make_key` contains a colon, so that case is modelled as `(key, "")`. -/
def splitFirstColonAux : List Char → List Char → Option (List Char × List Char)
  | _, [] => none
  | acc, c :: rest =>
      if c = ':' then some (acc.reverse, rest)
      else splitFirstColonAux (c :: acc) rest

/-- String-level wrapper for `splitFirstColonAux`. -/
def splitFirstColon (key : String) : String × String :=
  match splitFirstColonAux [] key.toList with
  | some (a, b) => (String.mk a, String.mk b)
  | none => (key, "")

/-- `SandboxManager.clear_pool`: snapshot the total count; when
`close_containers` is set, call `remove_sandbox` on the split of every
active key and then `cleanup_all_evicted`; otherwise just clear both tiers. -/
def clear_pool (env : String → CloseBehavior) (m : SandboxManager)
    (close_containers : Bool) : Nat × SandboxManager :=
  let count := m.pool.length + m.evicted.length
  if close_containers then
    let m1 := (m.pool.map Prod.fst).foldl
      (fun acc key =>
        (remove_sandbox acc (splitFirstColon key).1 (splitFirstColon key).2).2) m
    (count, (cleanup_all_evicted env m1).2.2)
  else
    (count, { m with pool := [], evicted := [] })

/-- `SandboxManager.get_pool_size`. -/
def get_pool_size (m : SandboxManager) : Nat := m.pool.length

/-- `SandboxManager.get_evicted_size`. -/
def get_evicted_size (m : SandboxManager) : Nat := m.evicted.length

/-- One public operation on the pool, with its `time.time()` values made
explicit. -/
inductive PoolOp where
  | getOp (agent_name session_id : String)
      (config : Option DockerSandboxConfig) (now : Int)
  | markOp (agent_name session_id : String) (now : Int)
  | removeOp (agent_name session_id : String)
  | cleanupIdleOp (idle_timeout now : Int)
  | cleanupAllOp
  | clearOp (close_containers : Bool)
deriving DecidableEq, Repr

/-- State transition of one public operation (return values discarded). -/
def step (env : String → CloseBehavior) (m : SandboxManager) :
    PoolOp → SandboxManager
  | PoolOp.getOp a s cfg t => (get_sandbox m a s cfg t).2
  | PoolOp.markOp a s t => mark_sandbox m a s t
  | PoolOp.removeOp a s => (remove_sandbox m a s).2
  | PoolOp.cleanupIdleOp tmo now => (cleanup_idle_sandboxes env m tmo now).2.2
  | PoolOp.cleanupAllOp => (cleanup_all_evicted env m).2.2
  | PoolOp.clearOp cc => (clear_pool env m cc).2

/-- State reached from a freshly constructed manager after a sequence of
public operations. -/
def runOps (env : String → CloseBehavior) (capacity : Nat)
    (ops : List PoolOp) : SandboxManager :=
  ops.foldl (step env) (SandboxManager.mkEmpty capacity)

/-- A `get` whose config (if any) carries the same identity as the call —
the shape of every call site in the repository. -/
def wf_op : PoolOp → Bool
  | PoolOp.getOp a s (some cfg) _ =>
      cfg.agent_name == a && cfg.session_id == s
  | _ => true

/-- The docker daemon view used by `DockerContainer`: container name to
status string (absent name = `NotFound`). -/
abbrev Daemon := List (String × String)

/-- `client.containers.get(name)` (status after `reload`). -/
def daemonGet (d : Daemon) (name : String) : Option String :=
  ((d.find? (fun p => p.1 == name)).map Prod.snd)

/-- `container.start()`: the daemon marks the container running. -/
def daemonStart (d : Daemon) (name : String) : Daemon :=
  d.map (fun p => if p.1 == name then (p.1, "running") else p)

/-- Calls `DockerContainer` issues against the daemon. -/
inductive DockerEvent where
  | getContainer (name : String)
  | startContainer (name : String)
  | execRun (name : String) (command : List String)
deriving DecidableEq, Repr

/-- `DockerContainer.exec`: `containers.get` (raising `NotFound` when the
record is gone), then `_is_running` (another `get` + `reload` + status
comparison); when not running, `restart()` (a `get` + `start`) before
`exec_run`. The result of a successful `exec_run` is abstracted as the
(name, command) pair that ran. -/
def container_exec (d : Daemon) (container_name : String)
    (command : List String) :
    Except String (Daemon × List DockerEvent × (String × List String)) :=
  match daemonGet d container_name with
  | none => Except.error "NotFound"
  | some status =>
      if status == "running" then
        Except.ok (d,
          [DockerEvent.getContainer container_name,
           DockerEvent.getContainer container_name,
           DockerEvent.execRun container_name command],
          (container_name, command))
      else
        Except.ok (daemonStart d container_name,
          [DockerEvent.getContainer container_name,
           DockerEvent.getContainer container_name,
           DockerEvent.getContainer container_name,
           DockerEvent.startContainer container_name,
           DockerEvent.execRun container_name command],
          (container_name, command))

/-- Number of restarts in an event trace. -/
def countStarts (evts : List DockerEvent) : Nat :=
  (evts.filter (fun e => match e with
    | DockerEvent.startContainer _ => true
    | _ => false)).length

/-- Split a character list at every slash. -/
def splitOnSlashAux : List Char → List Char → List String
  | acc, [] => [String.mk acc.reverse]
  | acc, c :: rest =>
      if c = '/' then String.mk acc.reverse :: splitOnSlashAux [] rest
      else splitOnSlashAux (c :: acc) rest

/-- Components of a POSIX path after splitting on `/`, with empty and `.`
components dropped, as `pathlib` normalisation does. -/
def pathComponents (path : String) : List String :=
  (splitOnSlashAux [] path.toList).filter (fun c => c != "" && c != ".")

/-- `pathlib.PurePath(path).name`: the final path component. -/
def pathNameOf (path : String) : String :=
  match (pathComponents path).getLast? with
  | some n => n
  | none => ""

/-- Index of the last occurrence of a character, CPython `str.rfind`. -/
def lastIdxOf (c : Char) (cs : List Char) : Option Nat :=
  match cs.reverse.findIdx? (fun x => x == c) with
  | some j => some (cs.length - 1 - j)
  | none => none

/-- `pathlib.PurePath(path).suffix`: the extension of the final component;
nonempty exactly when the last dot of the name sits strictly between the
first and last character (CPython: `0 < i < len(name) - 1`). -/
def pathSuffix (path : String) : String :=
  let name := (pathNameOf path).toList
  match lastIdxOf '.' name with
  | some i => if 0 < i ∧ i < name.length - 1 then String.mk (name.drop i) else ""
  | none => ""

/-- `pathlib.PurePath(path).stem`: the final component minus `pathSuffix`. -/
def pathStem (path : String) : String :=
  let name := (pathNameOf path).toList
  match lastIdxOf '.' name with
  | some i => if 0 < i ∧ i < name.length - 1 then String.mk (name.take i) else String.mk name
  | none => String.mk name

/-- The single-quote character, written by code point to keep the source
free of quote literals. -/
def squoteChar : Char := Char.ofNat 39

/-- The double-quote character. -/
def dquoteChar : Char := Char.ofNat 34

/-- `shlex.quote` safety: ASCII word characters plus at-sign, percent,
plus, equals, colon, comma, dot, slash and dash (the complement of the
character class CPython scans for). -/
def shlexSafeChar (c : Char) : Bool :=
  (c.isAlpha || c.isDigit) ||
    (c == Char.ofNat 95 || c == '@' || c == '%' || c == '+' || c == '=' ||
     c == ':' || c == ',' || c == '.' || c == '/' || c == '-')

/-- Replacement of one character inside `shlex.quote`: a single quote
becomes quote, dquote, quote, dquote, quote. -/
def shlexQuoteChar (c : Char) : List Char :=
  if c == squoteChar then [squoteChar, dquoteChar, squoteChar, dquoteChar, squoteChar]
  else [c]

/-- `shlex.quote(s)`. -/
def shlexQuote (s : String) : String :=
  if s == "" then String.mk [squoteChar, squoteChar]
  else if s.toList.all shlexSafeChar then s
  else String.mk ([squoteChar] ++ (s.toList.map shlexQuoteChar).flatten ++ [squoteChar])

/-- `" ".join(shlex.quote(item) for item in items)`. -/
def shJoinQuoted (items : List String) : String :=
  String.intercalate " " (items.map shlexQuote)

/-- `DockerSandbox.execute_file`: the in-container command issued for a
path, dispatched on the file extension of the path. The sandbox's session
id scopes the temp binary of the `.c` branch. -/
def execute_file_command (session_id : String) (path : String)
    (args : List String) : List String :=
  let args_list := args
  let extension := pathSuffix path
  if extension == ".sh" then ["sh", path] ++ args_list
  else if extension == ".py" then ["python", path] ++ args_list
  else if extension == ".js" then ["node", path] ++ args_list
  else if extension == ".c" then
    let output_path := "/tmp/" ++ pathStem path ++ "-" ++ session_id ++ ".out"
    let compile_command := ["cc", path, "-o", output_path]
    let run_command := [output_path] ++ args_list
    ["sh", "-c", shJoinQuoted compile_command ++ " && " ++ shJoinQuoted run_command]
  else
    let chmod_command := ["chmod", "+x", path]
    let run_command := [path] ++ args_list
    ["sh", "-c", shJoinQuoted chmod_command ++ " && " ++ shJoinQuoted run_command]

/-- Combined key distinctness: the keys of the two tiers, concatenated,
contain no duplicate — each key lives in at most one tier, at most once. -/
def keysInv (m : SandboxManager) : Prop :=
  (od_keys m.pool ++ od_keys m.evicted).Nodup

/-- A pool entry is well formed: its key is the flattened composite key of
its stored identity, and its sandbox carries the deterministic container
name and session id derived from that identity. -/
def entryOK (p : String × SandboxPoolItem) : Prop :=
  p.1 = make_key p.2.agent_name p.2.session_id ∧
  p.2.sandbox.container_name = p.2.agent_name ++ "-sandbox-" ++ p.2.session_id ∧
  p.2.sandbox.session_id = p.2.session_id

/-- Every entry of both tiers is well formed. -/
def NameInv (m : SandboxManager) : Prop :=
  (∀ p ∈ m.pool, entryOK p) ∧ (∀ p ∈ m.evicted, entryOK p)

/-- The entry a key currently resolves to, looking in the active tier
first, then the evicted tier — the probing order of `get_sandbox`. -/
def lookupEntry (m : SandboxManager) (k : String) : Option SandboxPoolItem :=
  match od_get k m.pool with
  | some it => some it
  | none => od_get k m.evicted

/-- A docker daemon on which `stop` and `remove` always succeed. -/
def envNone : String → CloseBehavior :=
  fun _ => { stop_fails := false, remove_fails := false }

/-- A docker daemon on which `stop` and `remove` always fail. -/
def envFailAll : String → CloseBehavior :=
  fun _ => { stop_fails := true, remove_fails := true }

/-- The pool entry produced by the first operation of the C4 witness run. -/
def c4item : SandboxPoolItem :=
  { sandbox := { session_id := "s", container_name := "a-sandbox-s" },
    agent_name := "a", session_id := "s", created_at := 0, last_accessed := 0,
    access_count := 1 }

/-- An evicted entry whose container close will be made to fail. -/
def c5item : SandboxPoolItem :=
  { sandbox := { session_id := "s", container_name := "A-sandbox-s" },
    agent_name := "A", session_id := "s", created_at := 0, last_accessed := 0,
    access_count := 1 }

/-- A pool state with one long-idle evicted entry. -/
def c5manager : SandboxManager :=
  { capacity := 10, pool := [], evicted := [("A:s", c5item)] }

/-- An evicted entry far past the idle timeout. -/
def c6stale : SandboxPoolItem :=
  { sandbox := { session_id := "e1", container_name := "E-sandbox-e1" },
    agent_name := "E", session_id := "e1", created_at := 0, last_accessed := 10,
    access_count := 1 }

/-- An evicted entry within the idle timeout. -/
def c6young : SandboxPoolItem :=
  { sandbox := { session_id := "e2", container_name := "F-sandbox-e2" },
    agent_name := "F", session_id := "e2", created_at := 0, last_accessed := 180,
    access_count := 2 }

/-- An active entry older than the idle timeout (must survive the sweep). -/
def c6active : SandboxPoolItem :=
  { sandbox := { session_id := "p1", container_name := "G-sandbox-p1" },
    agent_name := "G", session_id := "p1", created_at := 0, last_accessed := 5,
    access_count := 3 }

/-- A pool state exercising both sides of the idle timeout. -/
def c6manager : SandboxManager :=
  { capacity := 3, pool := [("G:p1", c6active)],
    evicted := [("E:e1", c6stale), ("F:e2", c6young)] }

/-- A minimal sandbox config for a given identity. -/
def cfgOf (agent_name session_id : String) : DockerSandboxConfig :=
  { agent_name := agent_name, session_id := session_id, docker_image := "img" }

theorem od_mem_iff {α : Type} (k : String) (d : OD α) :
    od_mem k d = true ↔ k ∈ od_keys d := by
  simp [od_mem, od_keys, List.any_eq_true, List.mem_map]

theorem od_get_eq_none {α : Type} {k : String} {d : OD α} :
    od_get k d = none ↔ k ∉ od_keys d := by
  simp only [od_get, Option.map_eq_none', List.find?_eq_none, beq_iff_eq, od_keys,
    List.mem_map, not_exists]
  constructor
  · intro h p hp
    exact h p hp.1 hp.2
  · intro h p hp he
    exact h p ⟨hp, he⟩

theorem od_get_mem {α : Type} {k : String} {d : OD α} {v : α}
    (h : od_get k d = some v) : (k, v) ∈ d := by
  simp only [od_get, Option.map_eq_some'] at h
  obtain ⟨p, hfind, hsnd⟩ := h
  have hk : p.1 = k := by
    have := List.find?_some hfind
    simpa using this
  have hmem := List.mem_of_find?_eq_some hfind
  have he : (k, v) = p := by
    cases p; simp_all
  rw [he]; exact hmem

theorem od_get_mem_keys {α : Type} {k : String} {d : OD α} {v : α}
    (h : od_get k d = some v) : k ∈ od_keys d := by
  have := od_get_mem h
  simp only [od_keys, List.mem_map]
  exact ⟨(k, v), this, rfl⟩

theorem od_erase_not_mem {α : Type} {k : String} {d : OD α}
    (h : k ∉ od_keys d) : od_erase k d = d := by
  apply List.filter_eq_self.mpr
  intro p hp
  have hne : p.1 ≠ k := by
    intro he
    exact h (by simp only [od_keys, List.mem_map]; exact ⟨p, hp, he⟩)
  simpa [bne_iff_ne] using hne

theorem od_keys_erase {α : Type} (k : String) (d : OD α) :
    od_keys (od_erase k d) = (od_keys d).filter (fun x => x != k) := by
  induction d with
  | nil => rfl
  | cons p rest ih =>
      simp only [od_erase, od_keys, List.filter_cons, List.map_cons] at *
      cases hb : (p.1 != k) <;> simp [hb, ih]

theorem od_erase_sublist {α : Type} (k : String) (d : OD α) :
    (od_erase k d).Sublist d := List.filter_sublist d

theorem od_get_erase_self {α : Type} (k : String) (d : OD α) :
    od_get k (od_erase k d) = none := by
  simp only [od_get, Option.map_eq_none']
  apply List.find?_eq_none.mpr
  intro p hp
  have h2 := List.of_mem_filter hp
  simp only [bne_iff_ne, ne_eq] at h2
  simpa using h2

theorem od_mem_false_iff {α : Type} {k : String} {d : OD α} :
    od_mem k d = false ↔ k ∉ od_keys d := by
  rw [← Bool.not_eq_true, not_iff_not]
  exact od_mem_iff k d
theorem find?_map_set {α : Type} (k : String) (v : α) (d : OD α)
    (hm : od_mem k d = true) :
    (d.map (fun p => if p.1 == k then (k, v) else p)).find? (fun p => p.1 == k)
      = some (k, v) := by
  induction d with
  | nil => simp [od_mem] at hm
  | cons p rest ih =>
      cases hb : (p.1 == k) with
      | true =>
          simp only [List.map_cons, hb, if_true, List.find?_cons, beq_self_eq_true]
      | false =>
          have hrest : od_mem k rest = true := by
            simpa [od_mem, List.any_cons, hb] using hm
          simp only [List.map_cons, hb, Bool.false_eq_true, if_false,
            List.find?_cons, ih hrest]

theorem find?_append_not_mem {α : Type} (k : String) (d tail : OD α)
    (h : od_mem k d = false) :
    (d ++ tail).find? (fun p => p.1 == k) = tail.find? (fun p => p.1 == k) := by
  induction d with
  | nil => simp
  | cons p rest ih =>
      have hb : (p.1 == k) = false := by
        by_contra hc
        simp only [Bool.not_eq_false] at hc
        simp [od_mem, List.any_cons, hc] at h
      have hrest : od_mem k rest = false := by
        simpa [od_mem, List.any_cons, hb] using h
      simp only [List.cons_append, List.find?_cons, hb, ih hrest]

theorem od_get_set_self {α : Type} (k : String) (v : α) (d : OD α) :
    od_get k (od_set k v d) = some v := by
  unfold od_set od_get
  by_cases hm : od_mem k d = true
  · simp only [hm, if_true, find?_map_set k v d hm, Option.map_some']
  · have hm2 : od_mem k d = false := by simpa using hm
    simp only [hm2, Bool.false_eq_true, if_false,
      find?_append_not_mem k d [(k, v)] hm2, List.find?_cons, beq_self_eq_true,
      Option.map_some']

theorem od_erase_map_set {α : Type} (k : String) (v : α) (d : OD α) :
    od_erase k (d.map (fun p => if p.1 == k then (k, v) else p)) = od_erase k d := by
  induction d with
  | nil => rfl
  | cons p rest ih =>
      cases hb : (p.1 == k) with
      | true =>
          simp only [List.map_cons, hb, if_true, od_erase, List.filter_cons,
            bne_self_eq_false, Bool.false_eq_true, if_false]
          have hb2 : (p.1 != k) = false := by simp [bne, hb]
          simp only [hb2, Bool.false_eq_true, if_false]
          simpa [od_erase] using ih
      | false =>
          have hb2 : (p.1 != k) = true := by simp [bne, hb]
          simp only [List.map_cons, hb, Bool.false_eq_true, if_false, od_erase,
            List.filter_cons, hb2, if_true]
          simpa [od_erase] using ih

theorem od_erase_set {α : Type} (k : String) (v : α) (d : OD α) :
    od_erase k (od_set k v d) = od_erase k d := by
  unfold od_set
  by_cases hm : od_mem k d = true
  · simp only [hm, if_true]
    exact od_erase_map_set k v d
  · have hm2 : od_mem k d = false := by simpa using hm
    simp only [hm2, Bool.false_eq_true, if_false, od_erase, List.filter_append,
      List.filter_cons, bne_self_eq_false, List.filter_nil, List.append_nil]

theorem od_move_set {α : Type} (k : String) (v : α) (d : OD α) :
    od_move_to_end k (od_set k v d) = od_erase k d ++ [(k, v)] := by
  unfold od_move_to_end
  rw [od_get_set_self, od_erase_set]

theorem mem_od_set {α : Type} {k : String} {v : α} {d : OD α} {p : String × α}
    (h : p ∈ od_set k v d) : p = (k, v) ∨ p ∈ d := by
  unfold od_set at h
  by_cases hm : od_mem k d = true
  · simp only [hm, if_true, List.mem_map] at h
    obtain ⟨q, hq, he⟩ := h
    cases hb : (q.1 == k) with
    | true => left; rw [← he]; simp [hb]
    | false => right; rw [← he]; simp only [hb, Bool.false_eq_true, if_false]; exact hq
  · have hm2 : od_mem k d = false := by simpa using hm
    simp only [hm2, Bool.false_eq_true, if_false, List.mem_append,
      List.mem_singleton] at h
    tauto

theorem od_keys_set_not_mem {α : Type} {k : String} (v : α) {d : OD α}
    (h : k ∉ od_keys d) : od_keys (od_set k v d) = od_keys d ++ [k] := by
  have hm : od_mem k d = false := od_mem_false_iff.mpr h
  simp only [od_set, hm, Bool.false_eq_true, if_false, od_keys, List.map_append,
    List.map_cons, List.map_nil]

theorem nodup_key_unique {α : Type} {d : OD α} (h : (od_keys d).Nodup)
    {k : String} {a b : α} (ha : (k, a) ∈ d) (hb : (k, b) ∈ d) : a = b := by
  induction d with
  | nil => cases ha
  | cons p rest ih =>
      simp only [od_keys, List.map_cons, List.nodup_cons] at h
      rcases List.mem_cons.mp ha with ha1 | ha1 <;>
        rcases List.mem_cons.mp hb with hb1 | hb1
      · rw [← ha1] at hb1
        exact congrArg Prod.snd hb1.symm
      · exfalso
        apply h.1
        rw [← ha1]
        simp only [od_keys, List.mem_map] at *
        exact ⟨(k, b), hb1, rfl⟩
      · exfalso
        apply h.1
        rw [← hb1]
        simp only [od_keys, List.mem_map] at *
        exact ⟨(k, a), ha1, rfl⟩
      · exact ih h.2 ha1 hb1

theorem filter_bne_of_not_mem {l : List String} {k : String} (h : k ∉ l) :
    l.filter (fun x => x != k) = l := by
  apply List.filter_eq_self.mpr
  intro x hx
  have : x ≠ k := fun he => h (he ▸ hx)
  simpa [bne_iff_ne] using this

theorem filter_bne_append_perm {l : List String} (h : l.Nodup) {k : String}
    (hk : k ∈ l) : (l.filter (fun x => x != k) ++ [k]).Perm l := by
  have he : l.filter (fun x => x != k) = l.erase k :=
    (List.Nodup.erase_eq_filter h k).symm
  rw [he]
  exact (List.perm_append_singleton k (l.erase k)).trans (List.perm_cons_erase hk).symm

theorem get_sandbox_pool_case {m : SandboxManager} {a s : String}
    {cfg : Option DockerSandboxConfig} {t : Int} {it : SandboxPoolItem}
    (h : od_get (make_key a s) m.pool = some it) :
    get_sandbox m a s cfg t =
      (Except.ok ((update_access it t).sandbox, false),
       { m with pool := od_erase (make_key a s) m.pool
                  ++ [(make_key a s, update_access it t)] }) := by
  unfold get_sandbox
  simp only [h, od_move_set]

theorem get_sandbox_evicted_case {m : SandboxManager} {a s : String}
    {cfg : Option DockerSandboxConfig} {t : Int} {it : SandboxPoolItem}
    (h1 : od_get (make_key a s) m.pool = none)
    (h2 : od_get (make_key a s) m.evicted = some it) :
    get_sandbox m a s cfg t =
      (Except.ok ((update_access it t).sandbox, false),
       { m with pool := od_erase (make_key a s) m.pool
                  ++ [(make_key a s, update_access it t)],
                evicted := od_erase (make_key a s) m.evicted }) := by
  unfold get_sandbox
  simp only [h1, h2, od_move_set]

theorem get_sandbox_error_case {m : SandboxManager} {a s : String} {t : Int}
    (h1 : od_get (make_key a s) m.pool = none)
    (h2 : od_get (make_key a s) m.evicted = none) :
    get_sandbox m a s none t =
      (Except.error (SandboxError.valueError a s), m) := by
  unfold get_sandbox
  simp only [h1, h2]

theorem get_sandbox_new_case {m : SandboxManager} {a s : String}
    {cfg : DockerSandboxConfig} {t : Int}
    (h1 : od_get (make_key a s) m.pool = none)
    (h2 : od_get (make_key a s) m.evicted = none) :
    get_sandbox m a s (some cfg) t =
      (Except.ok (DockerSandbox.ofConfig cfg, true),
       let m1 := if m.pool.length ≥ m.capacity then evict_lru m else m
       { m1 with pool := od_erase (make_key a s) m1.pool
                   ++ [(make_key a s,
                        { sandbox := DockerSandbox.ofConfig cfg, agent_name := a,
                          session_id := s, created_at := t, last_accessed := t,
                          access_count := 1 })] }) := by
  unfold get_sandbox
  simp only [h1, h2, od_move_set]

theorem od_keys_append {α : Type} (d1 d2 : OD α) :
    od_keys (d1 ++ d2) = od_keys d1 ++ od_keys d2 := by
  simp [od_keys]

theorem nodup_touch_left {kp ke : List String} {k : String}
    (h : (kp ++ ke).Nodup) (hk : k ∈ kp) :
    ((kp.filter (fun x => x != k) ++ [k]) ++ ke).Nodup := by
  have hkp : kp.Nodup := h.of_append_left
  have P := filter_bne_append_perm hkp hk
  exact ((P.append_right ke).symm).nodup h

theorem nodup_move_right_to_left {kp ke : List String} {k : String}
    (h : (kp ++ ke).Nodup) (hke : k ∈ ke) :
    ((kp ++ [k]) ++ ke.filter (fun x => x != k)).Nodup := by
  have hken : ke.Nodup := h.of_append_right
  have P1 := filter_bne_append_perm hken hke
  have P2 : (k :: ke.filter (fun x => x != k)).Perm ke :=
    (List.perm_append_singleton _ _).symm.trans P1
  have P3 : ((kp ++ [k]) ++ ke.filter (fun x => x != k)).Perm (kp ++ ke) := by
    rw [List.append_assoc]
    exact List.Perm.append_left kp (by simpa using P2)
  exact P3.symm.nodup h

theorem nodup_evict_shift {k0 : String} {kprest ke : List String}
    (h : ((k0 :: kprest) ++ ke).Nodup) :
    (kprest ++ (ke ++ [k0])).Nodup := by
  have he : kprest ++ (ke ++ [k0]) = (kprest ++ ke) ++ [k0] :=
    (List.append_assoc kprest ke [k0]).symm
  rw [he]
  have P : ((kprest ++ ke) ++ [k0]).Perm (k0 :: (kprest ++ ke)) :=
    List.perm_append_singleton _ _
  exact P.symm.nodup (by simpa using h)

theorem nodup_insert_fresh {kp ke : List String} {k : String}
    (h : (kp ++ ke).Nodup) (hk : k ∉ kp ++ ke) :
    ((kp ++ [k]) ++ ke).Nodup := by
  have P : ((kp ++ [k]) ++ ke).Perm (k :: (kp ++ ke)) := by
    rw [List.append_assoc]
    exact List.perm_middle
  exact P.symm.nodup (List.nodup_cons.mpr ⟨hk, h⟩)

theorem keysInv_evict_lru {m : SandboxManager} (h : keysInv m) :
    keysInv (evict_lru m) := by
  obtain ⟨cap, pool, ev⟩ := m
  cases pool with
  | nil => exact h
  | cons p rest =>
      obtain ⟨k0, it0⟩ := p
      unfold keysInv at *
      simp only [evict_lru]
      have hk0 : k0 ∉ od_keys ev := by
        simp only [od_keys, List.map_cons, List.cons_append, List.nodup_cons] at h
        intro hc
        exact h.1 (List.mem_append.mpr (Or.inr hc))
      rw [od_keys_set_not_mem it0 hk0]
      exact nodup_evict_shift (by simpa [od_keys] using h)

theorem evict_lru_keys_perm {m : SandboxManager} (h : keysInv m) :
    ((od_keys (evict_lru m).pool) ++ od_keys (evict_lru m).evicted).Perm
      (od_keys m.pool ++ od_keys m.evicted) := by
  obtain ⟨cap, pool, ev⟩ := m
  cases pool with
  | nil => exact List.Perm.refl _
  | cons p rest =>
      obtain ⟨k0, it0⟩ := p
      unfold keysInv at h
      simp only [evict_lru]
      have hk0 : k0 ∉ od_keys ev := by
        simp only [od_keys, List.map_cons, List.cons_append, List.nodup_cons] at h
        intro hc
        exact h.1 (List.mem_append.mpr (Or.inr hc))
      rw [od_keys_set_not_mem it0 hk0]
      have he : od_keys rest ++ (od_keys ev ++ [k0])
          = (od_keys rest ++ od_keys ev) ++ [k0] :=
        (List.append_assoc _ _ _).symm
      rw [he]
      have P : ((od_keys rest ++ od_keys ev) ++ [k0]).Perm
          (k0 :: (od_keys rest ++ od_keys ev)) := List.perm_append_singleton _ _
      simpa [od_keys] using P

theorem keysInv_insert_new {m1 : SandboxManager} {k : String}
    {it : SandboxPoolItem} (h : keysInv m1)
    (hk : k ∉ od_keys m1.pool ++ od_keys m1.evicted) :
    keysInv { m1 with pool := od_erase k m1.pool ++ [(k, it)] } := by
  unfold keysInv at *
  have hkp : k ∉ od_keys m1.pool := fun hc => hk (List.mem_append.mpr (Or.inl hc))
  simp only [od_erase_not_mem hkp]
  have hkeys : od_keys (m1.pool ++ [(k, it)]) = od_keys m1.pool ++ [k] := by
    simp [od_keys]
  rw [hkeys]
  exact nodup_insert_fresh h hk

theorem keysInv_get {m : SandboxManager} (a s : String)
    (cfg : Option DockerSandboxConfig) (t : Int) (h : keysInv m) :
    keysInv (get_sandbox m a s cfg t).2 := by
  cases hp : od_get (make_key a s) m.pool with
  | some it =>
      rw [get_sandbox_pool_case hp]
      unfold keysInv at *
      have hkeys : od_keys (od_erase (make_key a s) m.pool
          ++ [(make_key a s, update_access it t)])
          = (od_keys m.pool).filter (fun x => x != make_key a s) ++ [make_key a s] := by
        rw [od_keys_append, od_keys_erase]
        rfl
      simp only [hkeys]
      exact nodup_touch_left h (od_get_mem_keys hp)
  | none =>
      cases he : od_get (make_key a s) m.evicted with
      | some it =>
          rw [get_sandbox_evicted_case hp he]
          unfold keysInv at *
          have hkp : make_key a s ∉ od_keys m.pool := od_get_eq_none.mp hp
          have hkeys : od_keys (od_erase (make_key a s) m.pool
              ++ [(make_key a s, update_access it t)])
              = od_keys m.pool ++ [make_key a s] := by
            rw [od_keys_append, od_erase_not_mem hkp]
            rfl
          simp only [hkeys, od_keys_erase]
          exact nodup_move_right_to_left h (od_get_mem_keys he)
      | none =>
          cases cfg with
          | none =>
              rw [get_sandbox_error_case hp he]
              exact h
          | some c =>
              rw [get_sandbox_new_case hp he]
              simp only
              have h1 : keysInv (if m.pool.length ≥ m.capacity then evict_lru m else m) := by
                by_cases hc : m.pool.length ≥ m.capacity
                · simp only [hc, if_true]; exact keysInv_evict_lru h
                · simp only [hc, if_false]; exact h
              have hfresh0 : make_key a s ∉ od_keys m.pool ++ od_keys m.evicted := by
                intro hc
                rcases List.mem_append.mp hc with hc | hc
                · exact od_get_eq_none.mp hp hc
                · exact od_get_eq_none.mp he hc
              have hfresh : make_key a s
                  ∉ od_keys (if m.pool.length ≥ m.capacity then evict_lru m else m).pool
                    ++ od_keys (if m.pool.length ≥ m.capacity then evict_lru m else m).evicted := by
                by_cases hc : m.pool.length ≥ m.capacity
                · simp only [hc, if_true]
                  intro hmem
                  exact hfresh0 ((evict_lru_keys_perm h).mem_iff.mp hmem)
                · simp only [hc, if_false]; exact hfresh0
              exact keysInv_insert_new h1 hfresh

theorem mark_sandbox_pool_case {m : SandboxManager} {a s : String} {t : Int}
    {it : SandboxPoolItem} (h : od_get (make_key a s) m.pool = some it) :
    mark_sandbox m a s t =
      { m with pool := od_erase (make_key a s) m.pool
                 ++ [(make_key a s, update_access it t)] } := by
  unfold mark_sandbox
  simp only [h, od_move_set]

theorem mark_sandbox_miss_case {m : SandboxManager} {a s : String} {t : Int}
    (h : od_get (make_key a s) m.pool = none) :
    mark_sandbox m a s t = m := by
  unfold mark_sandbox
  simp only [h]

theorem nodup_shrink {kp ke kp' ke' : List String} (h : (kp ++ ke).Nodup)
    (h1 : kp'.Sublist kp) (h2 : ke'.Sublist ke) : (kp' ++ ke').Nodup :=
  List.Nodup.sublist (List.Sublist.append h1 h2) h

theorem keysInv_mark {m : SandboxManager} (a s : String) (t : Int)
    (h : keysInv m) : keysInv (mark_sandbox m a s t) := by
  cases hp : od_get (make_key a s) m.pool with
  | some it =>
      rw [mark_sandbox_pool_case hp]
      unfold keysInv at *
      have hkeys : od_keys (od_erase (make_key a s) m.pool
          ++ [(make_key a s, update_access it t)])
          = (od_keys m.pool).filter (fun x => x != make_key a s) ++ [make_key a s] := by
        rw [od_keys_append, od_keys_erase]
        rfl
      simp only [hkeys]
      exact nodup_touch_left h (od_get_mem_keys hp)
  | none => rw [mark_sandbox_miss_case hp]; exact h

theorem keysInv_remove {m : SandboxManager} (a s : String) (h : keysInv m) :
    keysInv (remove_sandbox m a s).2 := by
  unfold remove_sandbox
  cases hp : od_get (make_key a s) m.pool with
  | some it =>
      simp only [hp]
      unfold keysInv at *
      rw [od_keys_erase]
      exact nodup_shrink h (List.filter_sublist _) (List.Sublist.refl _)
  | none =>
      cases he : od_get (make_key a s) m.evicted with
      | some it =>
          simp only [hp, he]
          unfold keysInv at *
          rw [od_keys_erase]
          exact nodup_shrink h (List.Sublist.refl _) (List.filter_sublist _)
      | none => simp only [hp, he]; exact h

theorem cleanup_loop_sublist (env : String → CloseBehavior) (ks : List String)
    (ev : OD SandboxPoolItem) (c : Nat) (os : List CloseOutcome) :
    ((cleanup_loop env ks ev c os).2.2).Sublist ev := by
  induction ks generalizing ev c os with
  | nil => exact List.Sublist.refl ev
  | cons k ks ih =>
      simp only [cleanup_loop]
      cases hg : od_get k ev with
      | some it =>
          simp only [hg]
          exact (ih _ _ _).trans (od_erase_sublist k ev)
      | none =>
          simp only [hg]
          exact ih _ _ _

theorem keysInv_cleanup_idle {m : SandboxManager}
    (env : String → CloseBehavior) (tmo now : Int) (h : keysInv m) :
    keysInv (cleanup_idle_sandboxes env m tmo now).2.2 := by
  unfold cleanup_idle_sandboxes
  unfold keysInv at *
  simp only
  exact nodup_shrink h (List.Sublist.refl _)
    (List.Sublist.map _ (cleanup_loop_sublist env _ m.evicted 0 []))

theorem keysInv_cleanup_all {m : SandboxManager}
    (env : String → CloseBehavior) (h : keysInv m) :
    keysInv (cleanup_all_evicted env m).2.2 := by
  unfold cleanup_all_evicted
  unfold keysInv at *
  simp only
  exact nodup_shrink h (List.Sublist.refl _)
    (List.Sublist.map _ (cleanup_loop_sublist env _ m.evicted 0 []))

theorem keysInv_fold_remove (keys : List String) (m : SandboxManager)
    (h : keysInv m) :
    keysInv (keys.foldl
      (fun acc key =>
        (remove_sandbox acc (splitFirstColon key).1 (splitFirstColon key).2).2) m) := by
  induction keys generalizing m with
  | nil => exact h
  | cons k ks ih =>
      exact ih _ (keysInv_remove _ _ h)

theorem keysInv_clear {m : SandboxManager} (env : String → CloseBehavior)
    (cc : Bool) (h : keysInv m) : keysInv (clear_pool env m cc).2 := by
  unfold clear_pool
  cases cc with
  | true =>
      simp only [if_true]
      exact keysInv_cleanup_all env (keysInv_fold_remove _ _ h)
  | false =>
      simp only [Bool.false_eq_true, if_false]
      unfold keysInv
      simp [od_keys]

theorem keysInv_step (env : String → CloseBehavior) (m : SandboxManager)
    (op : PoolOp) (h : keysInv m) : keysInv (step env m op) := by
  cases op with
  | getOp a s cfg t => exact keysInv_get a s cfg t h
  | markOp a s t => exact keysInv_mark a s t h
  | removeOp a s => exact keysInv_remove a s h
  | cleanupIdleOp tmo now => exact keysInv_cleanup_idle env tmo now h
  | cleanupAllOp => exact keysInv_cleanup_all env h
  | clearOp cc => exact keysInv_clear env cc h

theorem keysInv_runOps (env : String → CloseBehavior) (capacity : Nat)
    (ops : List PoolOp) : keysInv (runOps env capacity ops) := by
  have hgen : ∀ m, keysInv m → keysInv (ops.foldl (step env) m) := by
    induction ops with
    | nil => intro m h; exact h
    | cons op rest ih => intro m h; exact ih _ (keysInv_step env m op h)
  exact hgen _ (by simp [keysInv, SandboxManager.mkEmpty, od_keys])

theorem entryOK_update {k : String} {it : SandboxPoolItem} {t : Int}
    (h : entryOK (k, it)) : entryOK (k, update_access it t) := by
  unfold entryOK update_access at *
  simpa using h

theorem nameInv_evict_lru {m : SandboxManager} (h : NameInv m) :
    NameInv (evict_lru m) := by
  obtain ⟨cap, pool, ev⟩ := m
  cases pool with
  | nil => exact h
  | cons p rest =>
      obtain ⟨k0, it0⟩ := p
      obtain ⟨h1, h2⟩ := h
      constructor
      · intro q hq
        exact h1 q (List.mem_cons_of_mem _ hq)
      · intro q hq
        rcases mem_od_set hq with hq | hq
        · rw [hq]; exact h1 (k0, it0) (List.mem_cons_self _ _)
        · exact h2 q hq

theorem nameInv_get {m : SandboxManager} {a s : String}
    {cfg : Option DockerSandboxConfig} {t : Int} (h : NameInv m)
    (hwf : ∀ c, cfg = some c → c.agent_name = a ∧ c.session_id = s) :
    NameInv (get_sandbox m a s cfg t).2 := by
  cases hp : od_get (make_key a s) m.pool with
  | some it =>
      rw [get_sandbox_pool_case hp]
      refine ⟨?_, h.2⟩
      intro q hq
      rcases List.mem_append.mp hq with hq | hq
      · exact h.1 q (List.mem_of_mem_filter hq)
      · rw [List.mem_singleton.mp hq]
        exact entryOK_update (h.1 _ (od_get_mem hp))
  | none =>
      cases he : od_get (make_key a s) m.evicted with
      | some it =>
          rw [get_sandbox_evicted_case hp he]
          constructor
          · intro q hq
            rcases List.mem_append.mp hq with hq | hq
            · exact h.1 q (List.mem_of_mem_filter hq)
            · rw [List.mem_singleton.mp hq]
              exact entryOK_update (h.2 _ (od_get_mem he))
          · intro q hq
            exact h.2 q (List.mem_of_mem_filter hq)
      | none =>
          cases cfg with
          | none =>
              rw [get_sandbox_error_case hp he]
              exact h
          | some c =>
              obtain ⟨hca, hcs⟩ := hwf c rfl
              rw [get_sandbox_new_case hp he]
              simp only
              have h1 : NameInv (if m.pool.length ≥ m.capacity then evict_lru m else m) := by
                by_cases hc : m.pool.length ≥ m.capacity
                · simp only [hc, if_true]; exact nameInv_evict_lru h
                · simp only [hc, if_false]; exact h
              refine ⟨?_, h1.2⟩
              intro q hq
              rcases List.mem_append.mp hq with hq | hq
              · exact h1.1 q (List.mem_of_mem_filter hq)
              · rw [List.mem_singleton.mp hq]
                refine ⟨rfl, ?_, ?_⟩
                · simp only [DockerSandbox.ofConfig, hca, hcs]
                · simp only [DockerSandbox.ofConfig, hcs]

theorem nameInv_mark {m : SandboxManager} (a s : String) (t : Int)
    (h : NameInv m) : NameInv (mark_sandbox m a s t) := by
  cases hp : od_get (make_key a s) m.pool with
  | some it =>
      rw [mark_sandbox_pool_case hp]
      refine ⟨?_, h.2⟩
      intro q hq
      rcases List.mem_append.mp hq with hq | hq
      · exact h.1 q (List.mem_of_mem_filter hq)
      · rw [List.mem_singleton.mp hq]
        exact entryOK_update (h.1 _ (od_get_mem hp))
  | none => rw [mark_sandbox_miss_case hp]; exact h

theorem nameInv_remove {m : SandboxManager} (a s : String) (h : NameInv m) :
    NameInv (remove_sandbox m a s).2 := by
  unfold remove_sandbox
  cases hp : od_get (make_key a s) m.pool with
  | some it =>
      simp only [hp]
      exact ⟨fun q hq => h.1 q (List.mem_of_mem_filter hq), h.2⟩
  | none =>
      cases he : od_get (make_key a s) m.evicted with
      | some it =>
          simp only [hp, he]
          exact ⟨h.1, fun q hq => h.2 q (List.mem_of_mem_filter hq)⟩
      | none => simp only [hp, he]; exact h

theorem nameInv_cleanup_idle {m : SandboxManager}
    (env : String → CloseBehavior) (tmo now : Int) (h : NameInv m) :
    NameInv (cleanup_idle_sandboxes env m tmo now).2.2 := by
  unfold cleanup_idle_sandboxes
  simp only
  exact ⟨h.1, fun q hq =>
    h.2 q ((cleanup_loop_sublist env _ m.evicted 0 []).subset hq)⟩

theorem nameInv_cleanup_all {m : SandboxManager}
    (env : String → CloseBehavior) (h : NameInv m) :
    NameInv (cleanup_all_evicted env m).2.2 := by
  unfold cleanup_all_evicted
  simp only
  exact ⟨h.1, fun q hq =>
    h.2 q ((cleanup_loop_sublist env _ m.evicted 0 []).subset hq)⟩

theorem nameInv_fold_remove (keys : List String) (m : SandboxManager)
    (h : NameInv m) :
    NameInv (keys.foldl
      (fun acc key =>
        (remove_sandbox acc (splitFirstColon key).1 (splitFirstColon key).2).2) m) := by
  induction keys generalizing m with
  | nil => exact h
  | cons k ks ih => exact ih _ (nameInv_remove _ _ h)

theorem nameInv_clear {m : SandboxManager} (env : String → CloseBehavior)
    (cc : Bool) (h : NameInv m) : NameInv (clear_pool env m cc).2 := by
  unfold clear_pool
  cases cc with
  | true =>
      simp only [if_true]
      exact nameInv_cleanup_all env (nameInv_fold_remove _ _ h)
  | false =>
      simp only [Bool.false_eq_true, if_false]
      exact ⟨fun q hq => absurd hq (List.not_mem_nil q),
        fun q hq => absurd hq (List.not_mem_nil q)⟩

theorem nameInv_step (env : String → CloseBehavior) (m : SandboxManager)
    (op : PoolOp) (hop : wf_op op = true) (h : NameInv m) :
    NameInv (step env m op) := by
  cases op with
  | getOp a s cfg t =>
      apply nameInv_get h
      intro c hc
      cases cfg with
      | none => cases hc
      | some c2 =>
          cases hc
          simp only [wf_op, Bool.and_eq_true, beq_iff_eq] at hop
          exact hop
  | markOp a s t => exact nameInv_mark a s t h
  | removeOp a s => exact nameInv_remove a s h
  | cleanupIdleOp tmo now => exact nameInv_cleanup_idle env tmo now h
  | cleanupAllOp => exact nameInv_cleanup_all env h
  | clearOp cc => exact nameInv_clear env cc h

theorem nameInv_runOps (env : String → CloseBehavior) (capacity : Nat)
    (ops : List PoolOp) (hops : ∀ op ∈ ops, wf_op op = true) :
    NameInv (runOps env capacity ops) := by
  have hgen : ∀ m, NameInv m →
      (∀ op ∈ ops, wf_op op = true) → NameInv (ops.foldl (step env) m) := by
    clear hops
    induction ops with
    | nil => intro m h _; exact h
    | cons op rest ih =>
        intro m h hl
        exact ih _ (nameInv_step env m op (hl op (List.mem_cons_self _ _)) h)
          (fun o ho => hl o (List.mem_cons_of_mem _ ho))
  exact hgen _ ⟨fun q hq => absurd hq (List.not_mem_nil q),
    fun q hq => absurd hq (List.not_mem_nil q)⟩ hops

theorem cleanup_loop_cons_skip (env : String → CloseBehavior) (ks : List String)
    (p : String × SandboxPoolItem) (ev : OD SandboxPoolItem) (c : Nat)
    (os : List CloseOutcome) (h : p.1 ∉ ks) :
    cleanup_loop env ks (p :: ev) c os =
      ((cleanup_loop env ks ev c os).1, (cleanup_loop env ks ev c os).2.1,
       p :: (cleanup_loop env ks ev c os).2.2) := by
  induction ks generalizing ev c os with
  | nil => rfl
  | cons k ks ih =>
      have hk : p.1 ≠ k := fun he => h (he ▸ List.mem_cons_self k ks)
      have hkb : (p.1 == k) = false := by simpa using hk
      have hget : od_get k (p :: ev) = od_get k ev := by
        simp [od_get, List.find?_cons, hkb]
      have hbne : (p.1 != k) = true := by simp [bne, hkb]
      have herase : od_erase k (p :: ev) = p :: od_erase k ev := by
        simp [od_erase, List.filter_cons, hbne]
      have hnotin : p.1 ∉ ks := fun hm => h (List.mem_cons_of_mem _ hm)
      simp only [cleanup_loop, hget]
      cases hg : od_get k ev with
      | some it =>
          simp only [herase]
          exact ih (od_erase k ev) (c + 1)
            (os ++ [DockerSandbox.close env it.sandbox]) hnotin
      | none => exact ih ev c os hnotin

theorem cleanup_loop_filter_spec (env : String → CloseBehavior)
    (P : String × SandboxPoolItem → Bool) (ev : OD SandboxPoolItem)
    (c : Nat) (os : List CloseOutcome) (hnd : (od_keys ev).Nodup) :
    cleanup_loop env ((ev.filter P).map Prod.fst) ev c os =
      (c + (ev.filter P).length,
       os ++ (ev.filter P).map (fun p => DockerSandbox.close env p.2.sandbox),
       ev.filter (fun p => !(P p))) := by
  induction ev generalizing c os with
  | nil => simp [cleanup_loop]
  | cons p rest ih =>
      have hnd0 : p.1 ∉ od_keys rest ∧ (od_keys rest).Nodup := by
        simpa [od_keys] using hnd
      cases hP : P p with
      | true =>
          simp only [List.filter_cons, hP, if_true, List.map_cons, cleanup_loop]
          have hget : od_get p.1 (p :: rest) = some p.2 := by
            simp [od_get, List.find?_cons]
          have herase : od_erase p.1 (p :: rest) = rest := by
            have h1 : od_erase p.1 (p :: rest) = od_erase p.1 rest := by
              simp [od_erase, List.filter_cons, bne_self_eq_false]
            rw [h1, od_erase_not_mem hnd0.1]
          simp only [hget, herase]
          rw [ih (c + 1) (os ++ [DockerSandbox.close env p.2.sandbox]) hnd0.2]
          simp only [List.length_cons, List.map_cons, Bool.not_true,
            Bool.false_eq_true, if_false, List.append_assoc, List.singleton_append]
          have harith : c + 1 + (List.filter P rest).length
              = c + ((List.filter P rest).length + 1) := by omega
          rw [harith]
      | false =>
          have hp_notin : p.1 ∉ (rest.filter P).map Prod.fst := by
            intro hm
            apply hnd0.1
            simp only [List.mem_map] at hm
            obtain ⟨q, hq, he⟩ := hm
            simp only [od_keys, List.mem_map]
            exact ⟨q, List.mem_of_mem_filter hq, he⟩
          simp only [List.filter_cons, hP, Bool.false_eq_true, if_false]
          rw [cleanup_loop_cons_skip env _ p rest c os hp_notin]
          rw [ih c os hnd0.2]
          simp [hP]

theorem cleanup_idle_spec (env : String → CloseBehavior) (m : SandboxManager)
    (tmo now : Int) (hnd : (od_keys m.evicted).Nodup) :
    cleanup_idle_sandboxes env m tmo now =
      ((m.evicted.filter (staleP tmo now)).length,
       (m.evicted.filter (staleP tmo now)).map
         (fun p => DockerSandbox.close env p.2.sandbox),
       { m with evicted := m.evicted.filter (fun p => !(staleP tmo now p)) }) := by
  simp only [cleanup_idle_sandboxes]
  rw [cleanup_loop_filter_spec env (staleP tmo now) m.evicted 0 [] hnd]
  simp only [Nat.zero_add, List.nil_append]

theorem od_get_erase_append_self {α : Type} (k : String) (v : α) (d : OD α) :
    od_get k (od_erase k d ++ [(k, v)]) = some v := by
  have hne := od_get_erase_self k d
  rw [od_get_eq_none] at hne
  have hmem : od_mem k (od_erase k d) = false := od_mem_false_iff.mpr hne
  unfold od_get
  rw [find?_append_not_mem k (od_erase k d) [(k, v)] hmem]
  simp [List.find?_cons]

theorem lookupEntry_mem {m : SandboxManager} {k : String} {it : SandboxPoolItem}
    (h : lookupEntry m k = some it) : (k, it) ∈ m.pool ∨ (k, it) ∈ m.evicted := by
  unfold lookupEntry at h
  cases hp : od_get k m.pool with
  | some it2 =>
      rw [hp] at h
      injection h with h2
      exact Or.inl (h2 ▸ od_get_mem hp)
  | none =>
      rw [hp] at h
      exact Or.inr (od_get_mem h)

theorem get_sandbox_present {m : SandboxManager} {a s : String}
    {cfg : Option DockerSandboxConfig} {t : Int} {it : SandboxPoolItem}
    (hit : lookupEntry m (make_key a s) = some it) :
    (get_sandbox m a s cfg t).1 = Except.ok (it.sandbox, false) ∧
    lookupEntry (get_sandbox m a s cfg t).2 (make_key a s)
      = some (update_access it t) := by
  unfold lookupEntry at hit
  cases hp : od_get (make_key a s) m.pool with
  | some it2 =>
      rw [hp] at hit
      injection hit with h2
      subst h2
      rw [get_sandbox_pool_case hp]
      refine ⟨rfl, ?_⟩
      unfold lookupEntry
      simp only [od_get_erase_append_self]
  | none =>
      rw [hp] at hit
      rw [get_sandbox_evicted_case hp hit]
      refine ⟨rfl, ?_⟩
      unfold lookupEntry
      simp only [od_get_erase_append_self]

/-- C1: the claim says the active tier never exceeds the capacity after any
public operation, including a `getSandbox` that revives a key from the
evicted tier. The code violates this: reviving inserts into the active tier
with no capacity check. With capacity 1, after `getSandbox(A)`,
`getSandbox(B)` (which soft-evicts A) and `getSandbox(A)` (revival), the
active tier holds 2 entries. -/
theorem C1_revival_exceeds_capacity :
    (runOps envNone 1
      [PoolOp.getOp "A" "s1" (some (cfgOf "A" "s1")) 0,
       PoolOp.getOp "B" "s1" (some (cfgOf "B" "s1")) 1,
       PoolOp.getOp "A" "s1" none 2]).capacity = 1 ∧
    get_pool_size (runOps envNone 1
      [PoolOp.getOp "A" "s1" (some (cfgOf "A" "s1")) 0,
       PoolOp.getOp "B" "s1" (some (cfgOf "B" "s1")) 1,
       PoolOp.getOp "A" "s1" none 2]) = 2 := by
  decide

/-- C2: the claim predicts that with capacity 2, after creating A, B, C and
then calling `getSandbox(A)` with no config, the pool soft-evicts B so that
active = (C, A) and evicted = (B). The code instead revives A without any
eviction, ending with active = (B, C, A) — three entries above the
capacity of 2 — and an empty evicted tier. -/
theorem C2_capacity_two_scenario :
    od_keys (runOps envNone 2
      [PoolOp.getOp "A" "s1" (some (cfgOf "A" "s1")) 0,
       PoolOp.getOp "B" "s1" (some (cfgOf "B" "s1")) 1,
       PoolOp.getOp "C" "s1" (some (cfgOf "C" "s1")) 2,
       PoolOp.getOp "A" "s1" none 3]).pool = ["B:s1", "C:s1", "A:s1"] ∧
    (runOps envNone 2
      [PoolOp.getOp "A" "s1" (some (cfgOf "A" "s1")) 0,
       PoolOp.getOp "B" "s1" (some (cfgOf "B" "s1")) 1,
       PoolOp.getOp "C" "s1" (some (cfgOf "C" "s1")) 2,
       PoolOp.getOp "A" "s1" none 3]).evicted = [] ∧
    get_pool_size (runOps envNone 2
      [PoolOp.getOp "A" "s1" (some (cfgOf "A" "s1")) 0,
       PoolOp.getOp "B" "s1" (some (cfgOf "B" "s1")) 1,
       PoolOp.getOp "C" "s1" (some (cfgOf "C" "s1")) 2,
       PoolOp.getOp "A" "s1" none 3]) = 3 := by
  decide

/-- C3: after any sequence of public pool operations starting from a fresh
manager, the keys of the active and evicted tiers, taken together, contain
no duplicates — a key is present in at most one tier and at most once. -/
theorem C3_no_duplication (env : String → CloseBehavior) (capacity : Nat)
    (ops : List PoolOp) :
    (od_keys (runOps env capacity ops).pool
      ++ od_keys (runOps env capacity ops).evicted).Nodup :=
  keysInv_runOps env capacity ops

/-- C7: `get_sandbox` on a key present in neither tier, called without a
config, raises `ValueError` and leaves the manager state (both tiers,
every entry) unchanged. -/
theorem C7_unknown_key_invalid_argument (m : SandboxManager) (a s : String)
    (t : Int) (h1 : od_get (make_key a s) m.pool = none)
    (h2 : od_get (make_key a s) m.evicted = none) :
    get_sandbox m a s none t
      = (Except.error (SandboxError.valueError a s), m) :=
  get_sandbox_error_case h1 h2

/-- Witness for C7 at the empty manager. -/
theorem C7_unknown_key_invalid_argument_witness :
    get_sandbox (SandboxManager.mkEmpty 10) "a" "s" none 0
      = (Except.error (SandboxError.valueError "a" "s"),
         SandboxManager.mkEmpty 10) :=
  C7_unknown_key_invalid_argument (SandboxManager.mkEmpty 10) "a" "s" 0 rfl rfl

/-- C10: the flattened key conflates distinct identity pairs: the pairs
("a:b", "c") and ("a", "b:c") are distinct yet map to the same key, so
`has_sandbox`, `get_sandbox`, `mark_sandbox` and `remove_sandbox` for the
second pair all hit the entry (and container) created for the first; in
particular `get_sandbox` for the second pair returns the sandbox whose
container was named after the first pair. -/
theorem C10_key_conflation :
    ("a:b", "c") ≠ (("a", "b:c") : String × String) ∧
    make_key "a:b" "c" = make_key "a" "b:c" ∧
    has_sandbox (get_sandbox (SandboxManager.mkEmpty 8) "a:b" "c"
        (some (cfgOf "a:b" "c")) 0).2 "a" "b:c" = true ∧
    (get_sandbox (get_sandbox (SandboxManager.mkEmpty 8) "a:b" "c"
        (some (cfgOf "a:b" "c")) 0).2 "a" "b:c" none 1).1
      = Except.ok (DockerSandbox.ofConfig (cfgOf "a:b" "c"), false) ∧
    (DockerSandbox.ofConfig (cfgOf "a:b" "c")).container_name
      = "a:b-sandbox-c" ∧
    ((od_get (make_key "a" "b:c")
        (mark_sandbox (get_sandbox (SandboxManager.mkEmpty 8) "a:b" "c"
          (some (cfgOf "a:b" "c")) 0).2 "a" "b:c" 5).pool).map
        (fun it => it.access_count)) = some 2 ∧
    (remove_sandbox (get_sandbox (SandboxManager.mkEmpty 8) "a:b" "c"
        (some (cfgOf "a:b" "c")) 0).2 "a" "b:c").1 = true ∧
    (remove_sandbox (get_sandbox (SandboxManager.mkEmpty 8) "a:b" "c"
        (some (cfgOf "a:b" "c")) 0).2 "a" "b:c").2.pool = [] := by
  refine ⟨by decide, by decide, by decide, rfl, by decide, by decide,
    by decide, by decide⟩

/-- C4 counterexample: the claim asserts every `get_sandbox` for a fixed
pair (agentName, sessionID), before any removal, returns a sandbox bound to
the deterministic name agentName-sandbox-sessionID. For the pair
("p:q", "r") — whose flattened key collides with ("p", "q:r") — the first
`get_sandbox` call returns the sandbox created for ("p", "q:r"), bound to
"p-sandbox-q:r", not to "p:q-sandbox-r". -/
theorem C4_deterministic_name_counterexample :
    (get_sandbox (get_sandbox (SandboxManager.mkEmpty 4) "p" "q:r"
        (some (cfgOf "p" "q:r")) 0).2 "p:q" "r" none 1).1
      = Except.ok
          (({ session_id := "q:r", container_name := "p-sandbox-q:r" } :
            DockerSandbox), false) ∧
    ({ session_id := "q:r", container_name := "p-sandbox-q:r" } :
        DockerSandbox).container_name ≠ "p:q" ++ "-sandbox-" ++ "r" := by
  refine ⟨rfl, by decide⟩

/-- C4 (amended): in any state reachable by well-formed operations (each
`get` config carries the identity of the call), a `get_sandbox` for a key
present in either tier returns the stored sandbox unchanged with no new
construction, the entry survives the call with the same sandbox, the
container name is the deterministic name derived from the pair stored at
creation, and it equals agentName-sandbox-sessionID of the calling pair
whenever that pair is the creating pair (in particular when no distinct
pair collides on the flattened key). -/
theorem C4_identity_stability (env : String → CloseBehavior) (capacity : Nat)
    (ops : List PoolOp) (hops : ∀ op ∈ ops, wf_op op = true)
    (a s : String) (cfg : Option DockerSandboxConfig) (t : Int)
    (it : SandboxPoolItem)
    (hit : lookupEntry (runOps env capacity ops) (make_key a s) = some it) :
    (get_sandbox (runOps env capacity ops) a s cfg t).1
        = Except.ok (it.sandbox, false) ∧
    lookupEntry (get_sandbox (runOps env capacity ops) a s cfg t).2
        (make_key a s) = some (update_access it t) ∧
    (update_access it t).sandbox = it.sandbox ∧
    it.sandbox.container_name
        = it.agent_name ++ "-sandbox-" ++ it.session_id ∧
    (it.agent_name = a → it.session_id = s →
      it.sandbox.container_name = a ++ "-sandbox-" ++ s) := by
  have hinv := nameInv_runOps env capacity ops hops
  have hOK : entryOK (make_key a s, it) := by
    rcases lookupEntry_mem hit with hm | hm
    · exact hinv.1 _ hm
    · exact hinv.2 _ hm
  obtain ⟨hres, hpreserve⟩ :=
    @get_sandbox_present (runOps env capacity ops) a s cfg t it hit
  refine ⟨hres, hpreserve, rfl, hOK.2.1, ?_⟩
  intro h1 h2
  rw [hOK.2.1, h1, h2]

/-- Witness for C4 at a one-operation run creating key "a:s". -/
theorem C4_identity_stability_witness :
    (get_sandbox (runOps envNone 4
        [PoolOp.getOp "a" "s" (some (cfgOf "a" "s")) 0]) "a" "s" none 5).1
        = Except.ok (c4item.sandbox, false) ∧
    lookupEntry (get_sandbox (runOps envNone 4
        [PoolOp.getOp "a" "s" (some (cfgOf "a" "s")) 0]) "a" "s" none 5).2
        (make_key "a" "s") = some (update_access c4item 5) ∧
    (update_access c4item 5).sandbox = c4item.sandbox ∧
    c4item.sandbox.container_name
        = c4item.agent_name ++ "-sandbox-" ++ c4item.session_id ∧
    (c4item.agent_name = "a" → c4item.session_id = "s" →
      c4item.sandbox.container_name = "a" ++ "-sandbox-" ++ "s") :=
  C4_identity_stability envNone 4
    [PoolOp.getOp "a" "s" (some (cfgOf "a" "s")) 0] (by decide)
    "a" "s" none 5 c4item (by decide)

/-- C5 counterexample: the claim says a failed per-entry cleanup is counted
as not reclaimed and the entry is left in the evicted tier for retry. With
a daemon on which both `stop` and `remove` fail, an idle entry is still
counted as reclaimed (count = 1) and is removed from the evicted tier —
nothing is left to retry. -/
theorem C5_close_failure_counterexample :
    (envFailAll "A-sandbox-s").stop_fails = true ∧
    (envFailAll "A-sandbox-s").remove_fails = true ∧
    (cleanup_idle_sandboxes envFailAll c5manager 5 100).1 = 1 ∧
    (cleanup_idle_sandboxes envFailAll c5manager 5 100).2.2.evicted = [] := by
  decide

/-- C5 (amended): a failure while stopping or removing the container is
caught inside `close` itself (the sweep observes only a recorded outcome
and always completes, never escalating), but the entry is nonetheless
counted as reclaimed — the returned count is the full number of stale
entries — and it is removed from the evicted tier, so it is not retried on
a later sweep. -/
theorem C5_cleanup_failure_handling (env : String → CloseBehavior)
    (m : SandboxManager) (tmo now : Int) (k : String) (it : SandboxPoolItem)
    (hnd : (od_keys m.evicted).Nodup) (hmem : (k, it) ∈ m.evicted)
    (hstale : tmo < now - it.last_accessed) :
    DockerSandbox.close env it.sandbox
        ∈ (cleanup_idle_sandboxes env m tmo now).2.1 ∧
    (cleanup_idle_sandboxes env m tmo now).1
        = (m.evicted.filter (staleP tmo now)).length ∧
    1 ≤ (cleanup_idle_sandboxes env m tmo now).1 ∧
    k ∉ od_keys (cleanup_idle_sandboxes env m tmo now).2.2.evicted := by
  rw [cleanup_idle_spec env m tmo now hnd]
  have hstaleb : staleP tmo now (k, it) = true := by
    simp only [staleP, decide_eq_true_eq]
    exact hstale
  have hmemf : (k, it) ∈ m.evicted.filter (staleP tmo now) :=
    List.mem_filter.mpr ⟨hmem, hstaleb⟩
  refine ⟨List.mem_map_of_mem _ hmemf, rfl, ?_, ?_⟩
  · exact List.length_pos.mpr (List.ne_nil_of_mem hmemf)
  · intro hkmem
    simp only [od_keys, List.mem_map] at hkmem
    obtain ⟨q, hq, hqk⟩ := hkmem
    obtain ⟨qk, qv⟩ := q
    simp only at hqk
    subst hqk
    have hqev := List.mem_of_mem_filter hq
    have hyoung := (List.mem_filter.mp hq).2
    have hv : qv = it := nodup_key_unique hnd hqev hmem
    rw [hv] at hyoung
    simp only [hstaleb, Bool.not_true] at hyoung
    cases hyoung

/-- Witness for C5 at the one-entry state with an always-failing daemon. -/
theorem C5_cleanup_failure_handling_witness :
    DockerSandbox.close envFailAll c5item.sandbox
        ∈ (cleanup_idle_sandboxes envFailAll c5manager 5 100).2.1 ∧
    (cleanup_idle_sandboxes envFailAll c5manager 5 100).1
        = (c5manager.evicted.filter (staleP 5 100)).length ∧
    1 ≤ (cleanup_idle_sandboxes envFailAll c5manager 5 100).1 ∧
    "A:s" ∉ od_keys (cleanup_idle_sandboxes envFailAll c5manager 5 100).2.2.evicted :=
  C5_cleanup_failure_handling envFailAll c5manager 5 100 "A:s" c5item
    (by decide) (by decide) (by decide)

/-- C6: `cleanup_idle_sandboxes` inspects only the evicted tier: the active
tier (and the capacity) are untouched, the surviving evicted entries are
exactly those whose idle time is within the timeout (in order), every entry
strictly past the timeout is removed and closed, and the returned value
counts exactly the removed entries. -/
theorem C6_idle_reclamation (env : String → CloseBehavior)
    (m : SandboxManager) (tmo now : Int)
    (hnd : (od_keys m.evicted).Nodup) :
    (cleanup_idle_sandboxes env m tmo now).2.2.pool = m.pool ∧
    (cleanup_idle_sandboxes env m tmo now).2.2.capacity = m.capacity ∧
    (cleanup_idle_sandboxes env m tmo now).2.2.evicted
      = m.evicted.filter (fun p => decide (now - p.2.last_accessed ≤ tmo)) ∧
    (cleanup_idle_sandboxes env m tmo now).1
      = (m.evicted.filter (staleP tmo now)).length ∧
    (cleanup_idle_sandboxes env m tmo now).2.1
      = (m.evicted.filter (staleP tmo now)).map
          (fun p => DockerSandbox.close env p.2.sandbox) := by
  rw [cleanup_idle_spec env m tmo now hnd]
  refine ⟨rfl, rfl, ?_, rfl, rfl⟩
  apply List.filter_congr
  intro p _
  by_cases h : tmo < now - p.2.last_accessed
  · simp [staleP, h, not_le.mpr h]
  · simp [staleP, h, not_lt.mp h]

/-- Witness for C6 at a state with one stale evicted entry, one young
evicted entry and one stale-aged active entry. -/
theorem C6_idle_reclamation_witness :
    (cleanup_idle_sandboxes envNone c6manager 50 200).2.2.pool
        = c6manager.pool ∧
    (cleanup_idle_sandboxes envNone c6manager 50 200).2.2.capacity
        = c6manager.capacity ∧
    (cleanup_idle_sandboxes envNone c6manager 50 200).2.2.evicted
      = c6manager.evicted.filter
          (fun p => decide ((200 : Int) - p.2.last_accessed ≤ 50)) ∧
    (cleanup_idle_sandboxes envNone c6manager 50 200).1
      = (c6manager.evicted.filter (staleP 50 200)).length ∧
    (cleanup_idle_sandboxes envNone c6manager 50 200).2.1
      = (c6manager.evicted.filter (staleP 50 200)).map
          (fun p => DockerSandbox.close envNone p.2.sandbox) :=
  C6_idle_reclamation envNone c6manager 50 200 (by decide)

/-- C8: `execute_file` is a total dispatch on the file extension: `.sh`,
`.py`, `.js` run the file under the matching interpreter with the given
arguments; `.c` issues a single compound shell command compiling the file
to a session-scoped temp binary joined with `&&` to its execution, so a
compile failure short-circuits the run; every other path (including no
extension) issues `chmod +x` joined with `&&` to direct execution — never
an error. -/
theorem C8_execute_file_dispatch (session_id path : String)
    (args : List String) :
    (pathSuffix path = ".sh" →
      execute_file_command session_id path args = ["sh", path] ++ args) ∧
    (pathSuffix path = ".py" →
      execute_file_command session_id path args = ["python", path] ++ args) ∧
    (pathSuffix path = ".js" →
      execute_file_command session_id path args = ["node", path] ++ args) ∧
    (pathSuffix path = ".c" →
      execute_file_command session_id path args =
        ["sh", "-c",
         shJoinQuoted ["cc", path, "-o",
           "/tmp/" ++ pathStem path ++ "-" ++ session_id ++ ".out"]
         ++ " && "
         ++ shJoinQuoted
             (["/tmp/" ++ pathStem path ++ "-" ++ session_id ++ ".out"] ++ args)]) ∧
    (pathSuffix path ≠ ".sh" → pathSuffix path ≠ ".py" →
     pathSuffix path ≠ ".js" → pathSuffix path ≠ ".c" →
      execute_file_command session_id path args =
        ["sh", "-c", shJoinQuoted ["chmod", "+x", path] ++ " && "
          ++ shJoinQuoted ([path] ++ args)]) := by
  refine ⟨?_, ?_, ?_, ?_, ?_⟩
  · intro h
    simp [execute_file_command, h]
  · intro h
    simp [execute_file_command, h]
  · intro h
    simp [execute_file_command, h]
  · intro h
    simp [execute_file_command, h]
  · intro h1 h2 h3 h4
    have b1 : (pathSuffix path == ".sh") = false := by simpa using h1
    have b2 : (pathSuffix path == ".py") = false := by simpa using h2
    have b3 : (pathSuffix path == ".js") = false := by simpa using h3
    have b4 : (pathSuffix path == ".c") = false := by simpa using h4
    simp [execute_file_command, b1, b2, b3, b4]

/-- Witness for C8 on the three spec examples: a `.py` file, a `.c` file
and an extension-less file. -/
theorem C8_execute_file_dispatch_witness :
    execute_file_command "s1" "run.py" ["--x"]
        = ["python", "run.py", "--x"] ∧
    execute_file_command "s1" "prog.c" []
        = ["sh", "-c", "cc prog.c -o /tmp/prog-s1.out && /tmp/prog-s1.out"] ∧
    execute_file_command "s1" "noext" []
        = ["sh", "-c", "chmod +x noext && noext"] := by
  refine ⟨?_, ?_, ?_⟩
  · exact (C8_execute_file_dispatch "s1" "run.py" ["--x"]).2.1 (by decide)
  · rw [(C8_execute_file_dispatch "s1" "prog.c" []).2.2.2.1 (by decide)]
    decide
  · rw [(C8_execute_file_dispatch "s1" "noext" []).2.2.2.2
      (by decide) (by decide) (by decide) (by decide)]
    decide

theorem daemonGet_daemonStart {d : Daemon} {n status : String}
    (h : daemonGet d n = some status) :
    daemonGet (daemonStart d n) n = some "running" := by
  induction d with
  | nil => simp [daemonGet] at h
  | cons p rest ih =>
      cases hb : (p.1 == n) with
      | true =>
          simp only [daemonGet, daemonStart, List.map_cons, hb, if_true,
            List.find?_cons, Option.map_some']
      | false =>
          have hrest : daemonGet rest n = some status := by
            simp only [daemonGet, List.find?_cons, hb] at h
            exact h
          have hih := ih hrest
          simp only [daemonGet, daemonStart, List.map_cons, hb,
            Bool.false_eq_true, if_false, List.find?_cons] at hih ⊢
          exact hih

/-- C9: calling `exec` on a container that exists at the daemon but is not
running issues exactly one restart (a `start` call) before the single
`exec_run`, the command then executes and the caller gets a success — no
"container not running" error is observable — and the container is left
running. -/
theorem C9_exec_self_healing (d : Daemon) (container_name status : String)
    (command : List String)
    (hfound : daemonGet d container_name = some status)
    (hstopped : status ≠ "running") :
    container_exec d container_name command
      = Except.ok (daemonStart d container_name,
          [DockerEvent.getContainer container_name,
           DockerEvent.getContainer container_name,
           DockerEvent.getContainer container_name,
           DockerEvent.startContainer container_name,
           DockerEvent.execRun container_name command],
          (container_name, command)) ∧
    countStarts
        [DockerEvent.getContainer container_name,
         DockerEvent.getContainer container_name,
         DockerEvent.getContainer container_name,
         DockerEvent.startContainer container_name,
         DockerEvent.execRun container_name command] = 1 ∧
    daemonGet (daemonStart d container_name) container_name
        = some "running" := by
  have hb : (status == "running") = false := by simpa using hstopped
  refine ⟨?_, by simp [countStarts], daemonGet_daemonStart hfound⟩
  simp only [container_exec, hfound, hb, Bool.false_eq_true, if_false]

/-- Witness for C9 at a daemon holding one exited container. -/
theorem C9_exec_self_healing_witness :
    container_exec [("c1", "exited")] "c1" ["echo", "hi"]
      = Except.ok (daemonStart [("c1", "exited")] "c1",
          [DockerEvent.getContainer "c1", DockerEvent.getContainer "c1",
           DockerEvent.getContainer "c1", DockerEvent.startContainer "c1",
           DockerEvent.execRun "c1" ["echo", "hi"]],
          ("c1", ["echo", "hi"])) ∧
    countStarts
        [DockerEvent.getContainer "c1", DockerEvent.getContainer "c1",
         DockerEvent.getContainer "c1", DockerEvent.startContainer "c1",
         DockerEvent.execRun "c1" ["echo", "hi"]] = 1 ∧
    daemonGet (daemonStart [("c1", "exited")] "c1") "c1" = some "running" :=
  C9_exec_self_healing [("c1", "exited")] "c1" "exited" ["echo", "hi"]
    (by decide) (by decide)
